import Mathlib

/-
Shallow embedding of the color-extraction engine (colorSampler) and the
font-metrics estimator (fontEstimator) of the business-card editor.

Modelling conventions:
- JavaScript numbers are modelled exactly: integer-valued quantities
  (pixel coordinates, bounding boxes, counters) as ℤ/ℕ, fractional
  arithmetic (averages, font sizes, luminance) as ℚ, and the CIELAB
  colour math (gamma decode with exponent 2.4, cube roots, Euclidean
  distance) as ℝ.
- Math.floor is Int.floor; Math.round v is ⌊v + 1/2⌋ (JS rounds half
  toward +∞); Math.max/Math.min are max/min.
- The pixel buffer (Uint8ClampedArray) is modelled as a total function
  ℤ → ℕ giving the byte at each index; the bounds questions about reads
  are stated on the lists of coordinates the samplers touch.
- A C-style loop "for (x = a; x < b; x += 2)" visits range2 a b below.
- The browser canvas text-measurement context is modelled as an abstract
  TextMeasurer capability (the host supplies it; its absence is an
  environment-configuration failure outside this model).
-/

/-- JS Math.round: round half toward positive infinity. -/
def jsRound (q : ℚ) : ℤ := ⌊q + 1 / 2⌋

/-- The integers visited by a loop from a (inclusive) to b (exclusive) in steps of 2. -/
def range2 (a b : ℤ) : List ℤ :=
  (List.range (((b - a).toNat + 1) / 2)).map (fun i : ℕ => a + 2 * (i : ℤ))

/-- JS String.prototype.trim on the character list: strip whitespace from both ends. -/
def trimChars (cs : List Char) : List Char :=
  ((cs.dropWhile Char.isWhitespace).reverse.dropWhile Char.isWhitespace).reverse

/-- JS text.trim(). -/
def jsTrim (s : String) : String := ⟨trimChars s.data⟩

/-- An RGB colour triple; channel values are JS numbers (exact rationals). -/
structure RGB where
  r : ℚ
  g : ℚ
  b : ℚ
deriving DecidableEq

/-- A CIELAB colour triple. -/
structure LAB where
  l : ℝ
  a : ℝ
  b : ℝ

/-- sRGB gamma decode of one 8-bit channel (function srgbToLinear). -/
noncomputable def srgbToLinear (c : ℚ) : ℝ :=
  let s : ℝ := (c : ℝ) / 255
  if s ≤ 0.04045 then s / 12.92 else ((s + 0.055) / 1.055) ^ (2.4 : ℝ)

/-- CIE nonlinear compression f used inside rgbToLab; Math.cbrt on the
positive branch is the real cube root t ^ (1/3). -/
noncomputable def labF (t : ℝ) : ℝ :=
  if t > 0.008856 then t ^ ((1 : ℝ) / 3) else 7.787 * t + 16 / 116

/-- sRGB to CIELAB conversion (function rgbToLab): linearize, apply the
D65 sRGB-to-XYZ matrix with reference-white normalization, compress. -/
noncomputable def rgbToLab (c : RGB) : LAB :=
  let lr := srgbToLinear c.r
  let lg := srgbToLinear c.g
  let lb := srgbToLinear c.b
  let x := labF ((0.4124564 * lr + 0.3575761 * lg + 0.1804375 * lb) / 0.95047)
  let y := labF (0.2126729 * lr + 0.7151522 * lg + 0.072175 * lb)
  let z := labF ((0.0193339 * lr + 0.1191920 * lg + 0.9503041 * lb) / 1.08883)
  ⟨116 * y - 16, 500 * (x - y), 200 * (y - z)⟩

/-- CIE76 Delta-E: Euclidean distance in LAB space (function deltaE). -/
noncomputable def deltaE (p q : LAB) : ℝ :=
  Real.sqrt ((p.l - q.l) * (p.l - q.l) + (p.a - q.a) * (p.a - q.a) + (p.b - q.b) * (p.b - q.b))

/-- Rec. 601 luma (function luminance). -/
def luminance (c : RGB) : ℚ := 0.299 * c.r + 0.587 * c.g + 0.114 * c.b

/-- JS padStart(2, "0") on a string. -/
def padStart2 (s : String) : String := ⟨List.replicate (2 - s.data.length) '0' ++ s.data⟩

/-- The inner toHex of rgbToHex: clamp Math.round(v) to [0, 255], render in
lowercase base 16 (Number.prototype.toString(16)), pad to two digits. -/
def toHexByte (v : ℚ) : String :=
  padStart2 ⟨Nat.toDigits 16 (max 0 (min 255 (jsRound v))).toNat⟩

/-- Function rgbToHex: "#" followed by the three padded channel bytes. -/
def rgbToHex (c : RGB) : String :=
  "#" ++ toHexByte c.r ++ toHexByte c.g ++ toHexByte c.b

/-- One character of the class [0-9a-f]. -/
def hexDigitOk (ch : Char) : Bool :=
  (decide ('0' ≤ ch) && decide (ch ≤ '9')) || (decide ('a' ≤ ch) && decide (ch ≤ 'f'))

/-- The regular expression ^#[0-9a-f]\x7b6\x7d$ as a Boolean predicate on strings. -/
def hexColorOk (s : String) : Bool :=
  match s.data with
  | '#' :: rest => rest.length == 6 && rest.all hexDigitOk
  | _ => false

/-- The decoded image: width, height and the raw RGBA byte buffer,
modelled as a total function from array index to byte value. -/
structure ImageData where
  width : ℕ
  height : ℕ
  data : ℤ → ℕ

/-- An axis-aligned bounding box in image-pixel coordinates. -/
structure Bbox where
  x0 : ℤ
  y0 : ℤ
  x1 : ℤ
  y1 : ℤ
deriving DecidableEq

/-- The array index getPixel reads first: (y * width + x) * 4. -/
def pixelIndex (w : ℕ) (x y : ℤ) : ℤ := (y * (w : ℤ) + x) * 4

/-- Function getPixel: read the R, G, B bytes at (x, y). -/
def getPixel (img : ImageData) (x y : ℤ) : RGB :=
  let i := pixelIndex img.width x y
  ⟨(img.data i : ℚ), (img.data (i + 1) : ℚ), (img.data (i + 2) : ℚ)⟩

/-- The row sum of medoidColor: sum over j ≠ i of deltaE(labs[i], labs[j]). -/
noncomputable def labDistSum (labs : List LAB) (i : ℕ) : ℝ :=
  (List.range labs.length).foldl
    (fun s j => if i = j then s else s + deltaE (labs.getD i ⟨0, 0, 0⟩) (labs.getD j ⟨0, 0, 0⟩)) 0

/-- The argmin loop of medoidColor. The accumulator none plays the role of
bestSum = Infinity: the first index always wins the first comparison, and a
later index replaces the best one only on a strictly smaller sum. -/
noncomputable def bestFold (f : ℕ → ℝ) (l : List ℕ) (acc : Option (ℝ × ℕ)) : Option (ℝ × ℕ) :=
  l.foldl
    (fun acc i =>
      let s := f i
      match acc with
      | none => some (s, i)
      | some b => if s < b.1 then some (s, i) else some b)
    acc

/-- The performance subsampling block of medoidColor: above the 200-element
cap, pick 200 elements at even stride step = length / 200, index floor(i * step). -/
def subsample (colors : List RGB) : List RGB :=
  if colors.length > 200 then
    (List.range 200).map
      (fun i : ℕ => colors.getD (⌊(i : ℚ) * ((colors.length : ℚ) / 200)⌋).toNat ⟨255, 255, 255⟩)
  else colors

/-- The argmin over the row sums of the pairwise Delta-E matrix. -/
noncomputable def bestMedoidIdx (samples : List RGB) : ℕ :=
  let labs := samples.map rgbToLab
  match bestFold (labDistSum labs) (List.range labs.length) none with
  | some b => b.2
  | none => 0

/-- Function medoidColor: representative real colour minimizing the total
Delta-E to the others, with the empty/singleton fallbacks and the
deterministic stride subsampling above 200 elements. -/
noncomputable def medoidColor (colors : List RGB) : RGB :=
  match colors with
  | [] => ⟨255, 255, 255⟩
  | [c] => c
  | _ =>
    let samples := subsample colors
    samples.getD (bestMedoidIdx samples) ⟨255, 255, 255⟩

/-- The coordinates read by sampleBorderColor: a 2px-margin band just
outside each edge of the box, clamped to the image, sampled at stride 2,
in source order top, bottom, left, right. -/
def borderReads (w h : ℕ) (b : Bbox) : List (ℤ × ℤ) :=
  let topY := max 0 (b.y0 - 2)
  let botY := min ((h : ℤ) - 1) (b.y1 + 2)
  let leftX := max 0 (b.x0 - 2)
  let rightX := min ((w : ℤ) - 1) (b.x1 + 2)
  let xs := range2 (max 0 b.x0) (min (w : ℤ) b.x1)
  let ys := range2 (max 0 b.y0) (min (h : ℤ) b.y1)
  xs.map (fun x => (x, topY)) ++ xs.map (fun x => (x, botY)) ++
    ys.map (fun y => (leftX, y)) ++ ys.map (fun y => (rightX, y))

/-- The border-band pixels collected by sampleBorderColor. -/
def borderPixels (img : ImageData) (b : Bbox) : List RGB :=
  (borderReads img.width img.height b).map (fun p => getPixel img p.1 p.2)

/-- Function sampleBorderColor: null when no border pixels were collected,
else the medoid of the collected band. -/
noncomputable def sampleBorderColor (img : ImageData) (b : Bbox) : Option RGB :=
  let colors := borderPixels img b
  if colors = [] then none else some (medoidColor colors)

/-- The coordinates visited by the interior sampling loops of
sampleTextAndBgColor: y outer, x inner, both clamped, stride 2. -/
def interiorReads (w h : ℕ) (b : Bbox) : List (ℤ × ℤ) :=
  (range2 (max 0 b.y0) (min (h : ℤ) b.y1)).flatMap
    (fun y => (range2 (max 0 b.x0) (min (w : ℤ) b.x1)).map (fun x => (x, y)))

/-- The interior pixels sampled by sampleTextAndBgColor. -/
def interiorPixels (img : ImageData) (b : Bbox) : List RGB :=
  (interiorReads img.width img.height b).map (fun p => getPixel img p.1 p.2)

/-- The mutable state of the interior loop of sampleTextAndBgColor. -/
structure ScanState where
  bgCluster : List RGB
  textCluster : List RGB
  farthestPixel : Option RGB
  farthestDist : ℝ

/-- One iteration of the interior loop: classify the pixel against the
border background estimate at Delta-E threshold 20, then update the
farthest-pixel tracker on a strictly larger distance. -/
noncomputable def scanStep (bgLab : LAB) (st : ScanState) (px : RGB) : ScanState :=
  let dist := deltaE bgLab (rgbToLab px)
  let st1 :=
    if dist < 20 then { st with bgCluster := st.bgCluster ++ [px] }
    else { st with textCluster := st.textCluster ++ [px] }
  if dist > st.farthestDist then { st1 with farthestPixel := some px, farthestDist := dist }
  else st1

/-- The whole interior loop, started from empty clusters and farthestDist 0. -/
noncomputable def interiorScan (img : ImageData) (b : Bbox) (bgLab : LAB) : ScanState :=
  (interiorPixels img b).foldl (scanStep bgLab) ⟨[], [], none, 0⟩

/-- The output record of sampleTextAndBgColor. -/
structure ClassificationResult where
  textColor : String
  bgColor : String
deriving DecidableEq

/-- Function sampleTextAndBgColor: background-first extraction of the text
and background colours of one region. -/
noncomputable def sampleTextAndBgColor (img : ImageData) (b : Bbox) : ClassificationResult :=
  match sampleBorderColor img b with
  | none => ⟨"#000000", "#ffffff"⟩
  | some borderBg =>
    let st := interiorScan img b (rgbToLab borderBg)
    let bgColor := rgbToHex (if st.bgCluster.length > 0 then medoidColor st.bgCluster else borderBg)
    let textColor :=
      if st.textCluster.length ≥ 3 then rgbToHex (medoidColor st.textCluster)
      else if st.farthestPixel.isSome ∧ st.farthestDist > 0 then
        rgbToHex (st.farthestPixel.getD ⟨0, 0, 0⟩)
      else if luminance borderBg > 128 then "#000000" else "#ffffff"
    ⟨textColor, bgColor⟩

/-- The grid points sampleCardBackgroundColor samples: a 25 by 25 grid over
the inner region after shaving a 5 percent margin, dropping points outside
the image and points inside any exclusion box (inclusive comparisons). -/
def gridSamplePoints (w h : ℕ) (textBboxes : List Bbox) : List (ℤ × ℤ) :=
  let marginX : ℤ := ⌊(w : ℚ) * 0.05⌋
  let marginY : ℤ := ⌊(h : ℚ) * 0.05⌋
  let innerW : ℤ := (w : ℤ) - marginX * 2
  let innerH : ℤ := (h : ℤ) - marginY * 2
  (List.range 25).flatMap fun gy : ℕ =>
    (List.range 25).filterMap fun gx : ℕ =>
      let x := marginX + ⌊(((gx : ℚ) + 0.5) / 25) * (innerW : ℚ)⌋
      let y := marginY + ⌊(((gy : ℚ) + 0.5) / 25) * (innerH : ℚ)⌋
      if x < 0 ∨ x ≥ (w : ℤ) ∨ y < 0 ∨ y ≥ (h : ℤ) then none
      else if textBboxes.any (fun bb => decide (x ≥ bb.x0 ∧ x ≤ bb.x1 ∧ y ≥ bb.y0 ∧ y ≤ bb.y1)) then none
      else some (x, y)

/-- The grid-sampled colours of sampleCardBackgroundColor. -/
def gridColors (img : ImageData) (textBboxes : List Bbox) : List RGB :=
  (gridSamplePoints img.width img.height textBboxes).map (fun p => getPixel img p.1 p.2)

/-- Pass 2 of sampleCardBackgroundColor: accumulate channel sums and the
count over the samples within Delta-E 15 of the pass-1 medoid. -/
noncomputable def outlierFold (centerLab : LAB) (colors : List RGB) : ℚ × ℚ × ℚ × ℕ :=
  colors.foldl
    (fun acc c =>
      if deltaE centerLab (rgbToLab c) < 15 then
        (acc.1 + c.r, acc.2.1 + c.g, acc.2.2.1 + c.b, acc.2.2.2 + 1)
      else acc)
    (0, 0, 0, 0)

/-- Function sampleCardBackgroundColor: two-pass global background colour
(grid sample, medoid, trimmed per-channel average). -/
noncomputable def sampleCardBackgroundColor (img : ImageData) (textBboxes : List Bbox) : String :=
  let colors := gridColors img textBboxes
  if colors.length = 0 then "#ffffff"
  else
    let center := medoidColor colors
    let t := outlierFold (rgbToLab center) colors
    if t.2.2.2 = 0 then rgbToHex center
    else
      rgbToHex
        ⟨(jsRound (t.1 / (t.2.2.2 : ℚ)) : ℚ), (jsRound (t.2.1 / (t.2.2.2 : ℚ)) : ℚ),
          (jsRound (t.2.2.1 / (t.2.2.2 : ℚ)) : ℚ)⟩

/-- The injected text-measurement capability standing for the browser 2D
canvas context: measureWidth gives ctx.measureText(text).width after
ctx.font is set to the given weight, size and family; measureAscentDescent
gives (actualBoundingBoxAscent, actualBoundingBoxDescent). -/
structure TextMeasurer where
  measureWidth : String → String → String → ℚ → ℚ
  measureAscentDescent : String → String → String → ℚ → ℚ × ℚ

/-- Function fitByWidth: 20 rounds of bisection of the size range [1, 200]
against the measured text width. -/
def fitByWidth (m : TextMeasurer) (text : String) (targetWidth : ℚ)
    (fontFamily fontWeight : String) : ℚ :=
  let p :=
    (List.range 20).foldl
      (fun (p : ℚ × ℚ) _ =>
        let mid := (p.1 + p.2) / 2
        let measured := m.measureWidth text fontFamily fontWeight mid
        if measured < targetWidth then (mid, p.2) else (p.1, mid))
      (1, 200)
  (p.1 + p.2) / 2

/-- Function fitByHeight: probe the rendered ascent plus descent at size 100
and scale linearly, with the 0.85-of-height degenerate fallback. -/
def fitByHeight (m : TextMeasurer) (text : String) (targetHeight : ℚ)
    (fontFamily fontWeight : String) : ℚ :=
  let probeSize : ℚ := 100
  let hts := m.measureAscentDescent text fontFamily fontWeight probeSize
  let renderedHeight := hts.1 + hts.2
  if renderedHeight ≤ 0 then targetHeight * 0.85
  else (targetHeight / renderedHeight) * probeSize

/-- Function estimateFontSize: guard degenerate heights, trim the text,
choose fit-by-width for texts of length at least 3 in a positive-width box
and fit-by-height otherwise, then clamp to [0.4, 1.5] of the box height. -/
def estimateFontSize (m : TextMeasurer) (text : String) (b : Bbox)
    (fontFamily fontWeight : String) : ℚ :=
  let bboxWidth := b.x1 - b.x0
  let bboxHeight := b.y1 - b.y0
  if bboxHeight ≤ 0 then 16
  else
    let trimmed := jsTrim text
    if trimmed.length = 0 then (bboxHeight : ℚ) * 0.85
    else
      let estimatedSize :=
        if trimmed.length ≥ 3 ∧ bboxWidth > 0 then
          fitByWidth m trimmed (bboxWidth : ℚ) fontFamily fontWeight
        else fitByHeight m trimmed (bboxHeight : ℚ) fontFamily fontWeight
      let minSize := (bboxHeight : ℚ) * 0.4
      let maxSize := (bboxHeight : ℚ) * 1.5
      max minSize (min maxSize estimatedSize)

/-- A word-level style hint from the OCR engine. -/
structure TesseractWord where
  is_bold : Bool
  is_serif : Bool
  is_monospace : Bool

/-- Function inferFontWeight: bold on a strict majority of bold hints. -/
def inferFontWeight (words : List TesseractWord) : String :=
  if words.length = 0 then "normal"
  else
    let boldCount : ℕ := words.foldl (fun n w => if w.is_bold then n + 1 else n) 0
    if (boldCount : ℚ) > (words.length : ℚ) / 2 then "bold" else "normal"

/-- A coordinate pair addresses a pixel inside a w by h image. -/
def inBoundsPt (w h : ℕ) (p : ℤ × ℤ) : Prop :=
  0 ≤ p.1 ∧ p.1 < (w : ℤ) ∧ 0 ≤ p.2 ∧ p.2 < (h : ℤ)

instance (w h : ℕ) (p : ℤ × ℤ) : Decidable (inBoundsPt w h p) := by
  unfold inBoundsPt; infer_instance

/-- The largest Delta-E from lab seen over a pixel list, starting from 0,
mirroring the farthest-pixel tracker of the interior loop. -/
noncomputable def maxDist (lab : LAB) (pixels : List RGB) : ℝ :=
  pixels.foldl (fun mx px => max mx (deltaE lab (rgbToLab px))) 0

/-- A concrete measurement oracle for witnesses: the measured width of a text
equals the probed font size, and the probe reports ascent 80 and descent 20. -/
def idMeasurer : TextMeasurer :=
  ⟨fun _ _ _ s => s, fun _ _ _ _ => (80, 20)⟩

theorem range2_subset {x a b : ℤ} (hx : x ∈ range2 a b) : a ≤ x ∧ x < b := by
  unfold range2 at hx
  obtain ⟨i, hi, rfl⟩ := List.mem_map.mp hx
  rw [List.mem_range] at hi
  constructor
  · omega
  · have h2 : 2 * (i : ℤ) < ((b - a).toNat : ℤ) := by omega
    omega

theorem range2_nil {a b : ℤ} (h : b ≤ a) : range2 a b = [] := by
  unfold range2
  have : ((b - a).toNat + 1) / 2 = 0 := by omega
  rw [this]
  rfl

theorem jsRound_natCast (n : ℕ) : jsRound (n : ℚ) = n := by
  unfold jsRound
  rw [add_comm, Int.floor_add_nat]
  norm_num

theorem deltaE_self (p : LAB) : deltaE p p = 0 := by
  simp [deltaE]

theorem deltaE_nonneg (p q : LAB) : 0 ≤ deltaE p q := Real.sqrt_nonneg _

set_option maxRecDepth 8000 in
theorem hexByteCore_ok :
    ∀ n : ℕ, n < 256 →
      (padStart2 ⟨Nat.toDigits 16 n⟩).data.length = 2 ∧
        (padStart2 ⟨Nat.toDigits 16 n⟩).data.all hexDigitOk = true := by
  decide

theorem toHexByte_ok (v : ℚ) :
    (toHexByte v).data.length = 2 ∧ (toHexByte v).data.all hexDigitOk = true := by
  unfold toHexByte
  apply hexByteCore_ok
  omega

theorem rgbToHex_ok (c : RGB) : hexColorOk (rgbToHex c) = true := by
  unfold rgbToHex hexColorOk
  rw [String.data_append, String.data_append, String.data_append]
  have h1 := toHexByte_ok c.r
  have h2 := toHexByte_ok c.g
  have h3 := toHexByte_ok c.b
  have hh : ("#" : String).data = ['#'] := rfl
  rw [hh]
  simp only [List.cons_append, List.nil_append]
  simp [List.all_append, h1.1, h2.1, h3.1, h1.2, h2.2, h3.2]

theorem toHexByte_natCast {n : ℕ} (h : n ≤ 255) :
    toHexByte (n : ℚ) = padStart2 ⟨Nat.toDigits 16 n⟩ := by
  unfold toHexByte
  rw [jsRound_natCast]
  congr 1
  have : max 0 (min 255 (n : ℤ)) = (n : ℤ) := by omega
  rw [this]
  simp


theorem bestFold_some (f : ℕ → ℝ) :
    ∀ (l : List ℕ) (b : ℝ × ℕ), ∃ b2, bestFold f l (some b) = some b2 := by
  intro l
  induction l with
  | nil => intro b; exact ⟨b, rfl⟩
  | cons i t ih =>
    intro b
    show ∃ b2, bestFold f t (if f i < b.1 then some (f i, i) else some b) = some b2
    by_cases h : f i < b.1
    · rw [if_pos h]; exact ih _
    · rw [if_neg h]; exact ih _

theorem bestFold_some_of_ne_nil (f : ℕ → ℝ) (l : List ℕ) (h : l ≠ []) :
    ∃ b, bestFold f l none = some b := by
  cases l with
  | nil => exact absurd rfl h
  | cons i t => exact bestFold_some f t (f i, i)

theorem bestFold_inv (f : ℕ → ℝ) (P : ℝ × ℕ → Prop) :
    ∀ (l : List ℕ) (acc : Option (ℝ × ℕ)),
      (∀ p, acc = some p → P p) → (∀ i ∈ l, P (f i, i)) →
      ∀ b, bestFold f l acc = some b → P b := by
  intro l
  induction l with
  | nil => intro acc hacc _ b hb; exact hacc b hb
  | cons i t ih =>
    intro acc hacc hl b hb
    cases acc with
    | none =>
      refine ih (some (f i, i)) ?_ (fun j hj => hl j (List.mem_cons_of_mem i hj)) b hb
      rintro p hp
      cases hp
      exact hl i (List.mem_cons_self i t)
    | some a =>
      have hb2 : bestFold f t (if f i < a.1 then some (f i, i) else some a) = some b := hb
      by_cases h : f i < a.1
      · rw [if_pos h] at hb2
        refine ih _ ?_ (fun j hj => hl j (List.mem_cons_of_mem i hj)) b hb2
        rintro p hp
        cases hp
        exact hl i (List.mem_cons_self i t)
      · rw [if_neg h] at hb2
        refine ih _ ?_ (fun j hj => hl j (List.mem_cons_of_mem i hj)) b hb2
        rintro p hp
        cases hp
        exact hacc a rfl

theorem subsample_subset {colors : List RGB} {x : RGB} (hx : x ∈ subsample colors) :
    x ∈ colors := by
  unfold subsample at hx
  by_cases hlen : colors.length > 200
  · rw [if_pos hlen] at hx
    obtain ⟨i, hi, rfl⟩ := List.mem_map.mp hx
    rw [List.mem_range] at hi
    have hq : ((i : ℚ) * ((colors.length : ℚ) / 200)) < (colors.length : ℚ) := by
      have hpos : (0 : ℚ) < (colors.length : ℚ) / 200 := by
        apply div_pos
        · exact_mod_cast Nat.lt_of_lt_of_le (by norm_num) (le_of_lt hlen)
        · norm_num
      calc (i : ℚ) * ((colors.length : ℚ) / 200)
          < 200 * ((colors.length : ℚ) / 200) := by
            exact mul_lt_mul_of_pos_right (by exact_mod_cast hi) hpos
        _ = (colors.length : ℚ) := by ring
    have hfl : ⌊(i : ℚ) * ((colors.length : ℚ) / 200)⌋ < (colors.length : ℤ) :=
      Int.floor_lt.mpr (by exact_mod_cast hq)
    have hidx : (⌊(i : ℚ) * ((colors.length : ℚ) / 200)⌋).toNat < colors.length := by omega
    rw [List.getD_eq_getElem _ _ hidx]
    exact List.getElem_mem hidx
  · rw [if_neg hlen] at hx
    exact hx

theorem subsample_ne_nil {colors : List RGB} (h : colors ≠ []) : subsample colors ≠ [] := by
  unfold subsample
  by_cases hlen : colors.length > 200
  · rw [if_pos hlen]
    intro hc
    have h200 := congrArg List.length hc
    rw [List.length_map, List.length_range] at h200
    simp at h200
  · rw [if_neg hlen]
    exact h

theorem bestMedoidIdx_lt (samples : List RGB) (h : samples ≠ []) :
    bestMedoidIdx samples < samples.length := by
  show (match bestFold (labDistSum (samples.map rgbToLab))
      (List.range (samples.map rgbToLab).length) none with
    | some b => b.2
    | none => 0) < samples.length
  have hrne : List.range (samples.map rgbToLab).length ≠ [] := by
    intro hc
    have := congrArg List.length hc
    rw [List.length_range, List.length_map] at this
    exact h (List.length_eq_zero.mp this)
  obtain ⟨bb, hbb⟩ := bestFold_some_of_ne_nil (labDistSum (samples.map rgbToLab)) _ hrne
  have hblt : bb.2 < samples.length := by
    refine bestFold_inv _ (fun p => p.2 < samples.length) _ none ?_ ?_ bb hbb
    · intro p hp; cases hp
    · intro i hi
      rw [List.mem_range, List.length_map] at hi
      exact hi
  rw [hbb]
  exact hblt

theorem medoidColor_nil : medoidColor [] = ⟨255, 255, 255⟩ := rfl

theorem medoidColor_singleton (c : RGB) : medoidColor [c] = c := rfl

theorem medoidColor_mem (colors : List RGB) (h : colors ≠ []) : medoidColor colors ∈ colors := by
  match colors with
  | [] => exact absurd rfl h
  | [c] => rw [medoidColor_singleton]; exact List.mem_singleton_self c
  | c1 :: c2 :: cs =>
    have heq : medoidColor (c1 :: c2 :: cs) =
        (subsample (c1 :: c2 :: cs)).getD (bestMedoidIdx (subsample (c1 :: c2 :: cs)))
          ⟨255, 255, 255⟩ := rfl
    rw [heq]
    have hsne : subsample (c1 :: c2 :: cs) ≠ [] :=
      subsample_ne_nil (List.cons_ne_nil c1 (c2 :: cs))
    have hlt := bestMedoidIdx_lt _ hsne
    rw [List.getD_eq_getElem _ _ hlt]
    exact subsample_subset (List.getElem_mem hlt)

theorem medoidColor_const {colors : List RGB} {c : RGB} (hall : ∀ x ∈ colors, x = c)
    (h : colors ≠ []) : medoidColor colors = c :=
  hall _ (medoidColor_mem colors h)

theorem scanStep_bg (lab : LAB) (st : ScanState) (px : RGB) :
    (scanStep lab st px).bgCluster =
      if deltaE lab (rgbToLab px) < 20 then st.bgCluster ++ [px] else st.bgCluster := by
  unfold scanStep
  by_cases h1 : deltaE lab (rgbToLab px) < 20 <;>
    by_cases h2 : deltaE lab (rgbToLab px) > st.farthestDist <;>
      simp [h1, h2]

theorem scanStep_text (lab : LAB) (st : ScanState) (px : RGB) :
    (scanStep lab st px).textCluster =
      if deltaE lab (rgbToLab px) < 20 then st.textCluster else st.textCluster ++ [px] := by
  unfold scanStep
  by_cases h1 : deltaE lab (rgbToLab px) < 20 <;>
    by_cases h2 : deltaE lab (rgbToLab px) > st.farthestDist <;>
      simp [h1, h2]

theorem scanStep_fd (lab : LAB) (st : ScanState) (px : RGB) :
    (scanStep lab st px).farthestDist = max st.farthestDist (deltaE lab (rgbToLab px)) := by
  unfold scanStep
  by_cases h2 : deltaE lab (rgbToLab px) > st.farthestDist
  · by_cases h1 : deltaE lab (rgbToLab px) < 20 <;>
      simp [h1, h2, max_eq_right (le_of_lt h2)]
  · by_cases h1 : deltaE lab (rgbToLab px) < 20 <;>
      simp [h1, h2, max_eq_left (le_of_not_lt h2)]

theorem scanStep_fp (lab : LAB) (st : ScanState) (px : RGB) :
    (scanStep lab st px).farthestPixel =
      if deltaE lab (rgbToLab px) > st.farthestDist then some px else st.farthestPixel := by
  unfold scanStep
  by_cases h1 : deltaE lab (rgbToLab px) < 20 <;>
    by_cases h2 : deltaE lab (rgbToLab px) > st.farthestDist <;>
      simp [h1, h2]

theorem scanFold_bg (lab : LAB) :
    ∀ (l : List RGB) (st : ScanState),
      (l.foldl (scanStep lab) st).bgCluster =
        st.bgCluster ++ l.filter (fun px => decide (deltaE lab (rgbToLab px) < 20)) := by
  intro l
  induction l with
  | nil => intro st; simp
  | cons px t ih =>
    intro st
    rw [List.foldl_cons, ih]
    by_cases h : deltaE lab (rgbToLab px) < 20
    · rw [scanStep_bg, if_pos h, List.filter_cons_of_pos (by simpa using h)]
      simp
    · rw [scanStep_bg, if_neg h, List.filter_cons_of_neg (by simpa using h)]

theorem scanFold_text (lab : LAB) :
    ∀ (l : List RGB) (st : ScanState),
      (l.foldl (scanStep lab) st).textCluster =
        st.textCluster ++ l.filter (fun px => !decide (deltaE lab (rgbToLab px) < 20)) := by
  intro l
  induction l with
  | nil => intro st; simp
  | cons px t ih =>
    intro st
    rw [List.foldl_cons, ih]
    by_cases h : deltaE lab (rgbToLab px) < 20
    · rw [scanStep_text, if_pos h, List.filter_cons_of_neg (by simpa using h)]
    · rw [scanStep_text, if_neg h, List.filter_cons_of_pos (by simpa using h)]
      simp

theorem scanFold_fd (lab : LAB) :
    ∀ (l : List RGB) (st : ScanState),
      (l.foldl (scanStep lab) st).farthestDist =
        l.foldl (fun mx px => max mx (deltaE lab (rgbToLab px))) st.farthestDist := by
  intro l
  induction l with
  | nil => intro st; rfl
  | cons px t ih =>
    intro st
    rw [List.foldl_cons, List.foldl_cons, ih, scanStep_fd]

theorem scanFold_far (lab : LAB) :
    ∀ (l : List RGB) (st : ScanState),
      ((l.foldl (scanStep lab) st).farthestPixel = st.farthestPixel ∧
        (l.foldl (scanStep lab) st).farthestDist = st.farthestDist) ∨
      (∃ px ∈ l, (l.foldl (scanStep lab) st).farthestPixel = some px ∧
        (l.foldl (scanStep lab) st).farthestDist = deltaE lab (rgbToLab px) ∧
        st.farthestDist < (l.foldl (scanStep lab) st).farthestDist) := by
  intro l
  induction l with
  | nil => intro st; exact Or.inl ⟨rfl, rfl⟩
  | cons px t ih =>
    intro st
    rw [List.foldl_cons]
    by_cases h : deltaE lab (rgbToLab px) > st.farthestDist
    · have hfp : (scanStep lab st px).farthestPixel = some px := by rw [scanStep_fp, if_pos h]
      have hfd : (scanStep lab st px).farthestDist = deltaE lab (rgbToLab px) := by
        rw [scanStep_fd]
        exact max_eq_right (le_of_lt h)
      rcases ih (scanStep lab st px) with ⟨h1, h2⟩ | ⟨q, hq, h1, h2, h3⟩
      · refine Or.inr ⟨px, List.mem_cons_self px t, ?_, ?_, ?_⟩
        · rw [h1, hfp]
        · rw [h2, hfd]
        · rw [h2, hfd]; exact h
      · refine Or.inr ⟨q, List.mem_cons_of_mem px hq, h1, h2, ?_⟩
        calc st.farthestDist < (scanStep lab st px).farthestDist := by rw [hfd]; exact h
          _ < (t.foldl (scanStep lab) (scanStep lab st px)).farthestDist := h3
    · have hfp : (scanStep lab st px).farthestPixel = st.farthestPixel := by
        rw [scanStep_fp, if_neg h]
      have hfd : (scanStep lab st px).farthestDist = st.farthestDist := by
        rw [scanStep_fd]
        exact max_eq_left (le_of_not_lt h)
      rcases ih (scanStep lab st px) with ⟨h1, h2⟩ | ⟨q, hq, h1, h2, h3⟩
      · exact Or.inl ⟨by rw [h1, hfp], by rw [h2, hfd]⟩
      · refine Or.inr ⟨q, List.mem_cons_of_mem px hq, h1, h2, ?_⟩
        rw [← hfd]
        exact h3

theorem maxDist_eq_scan (img : ImageData) (b : Bbox) (lab : LAB) :
    (interiorScan img b lab).farthestDist = maxDist lab (interiorPixels img b) := by
  unfold interiorScan maxDist
  exact scanFold_fd lab (interiorPixels img b) ⟨[], [], none, 0⟩

theorem maxDist_nonneg (lab : LAB) (l : List RGB) : 0 ≤ maxDist lab l := by
  unfold maxDist
  have key : ∀ (t : List RGB) (init : ℝ),
      init ≤ t.foldl (fun mx px => max mx (deltaE lab (rgbToLab px))) init := by
    intro t
    induction t with
    | nil => intro init; exact le_refl _
    | cons px s ih =>
      intro init
      calc init ≤ max init (deltaE lab (rgbToLab px)) := le_max_left _ _
        _ ≤ _ := ih _
  exact key l 0

theorem boldFold_eq_countP :
    ∀ (ws : List TesseractWord) (n : ℕ),
      ws.foldl (fun n w => if w.is_bold then n + 1 else n) n =
        n + ws.countP (fun w => w.is_bold) := by
  intro ws
  induction ws with
  | nil => intro n; simp
  | cons w t ih =>
    intro n
    rw [List.foldl_cons]
    by_cases h : w.is_bold
    · rw [if_pos h, ih, List.countP_cons_of_pos _ _ (by simpa using h)]
      omega
    · rw [if_neg h, ih, List.countP_cons_of_neg _ _ (by simpa using h)]

/-- C10: inferFontWeight returns "bold" exactly when the number of hints with
is_bold set strictly exceeds half the total number of hints, and returns
"normal" otherwise; in particular an exact tie and the empty hint list both
give "normal". -/
theorem spec_C10 (words : List TesseractWord) :
    (inferFontWeight words = "bold" ↔
      2 * words.countP (fun w => w.is_bold) > words.length) ∧
    (inferFontWeight words = "normal" ↔
      ¬(2 * words.countP (fun w => w.is_bold) > words.length)) := by
  unfold inferFontWeight
  by_cases h0 : words.length = 0
  · rw [if_pos h0]
    have hc : words.countP (fun w => w.is_bold) = 0 := by
      have := List.countP_le_length (p := fun w => w.is_bold) (l := words)
      omega
    constructor
    · constructor
      · intro hcontra
        exact absurd hcontra (by decide)
      · intro hcontra
        omega
    · constructor
      · intro _
        omega
      · intro _
        rfl
  · rw [if_neg h0, boldFold_eq_countP, Nat.zero_add]
    have hiff : ((words.countP (fun w => w.is_bold) : ℚ) > (words.length : ℚ) / 2) ↔
        2 * words.countP (fun w => w.is_bold) > words.length := by
      rw [gt_iff_lt, div_lt_iff₀ (by norm_num : (0 : ℚ) < 2)]
      constructor
      · intro h
        have h2 : words.length < words.countP (fun w => w.is_bold) * 2 := by exact_mod_cast h
        omega
      · intro h
        have h2 : words.length < words.countP (fun w => w.is_bold) * 2 := by omega
        exact_mod_cast h2
    by_cases hcond : (words.countP (fun w => w.is_bold) : ℚ) > (words.length : ℚ) / 2
    · rw [if_pos hcond]
      constructor
      · exact ⟨fun _ => hiff.mp hcond, fun _ => rfl⟩
      · constructor
        · intro hcontra
          exact absurd hcontra (by decide)
        · intro hcontra
          exact absurd (hiff.mp hcond) hcontra
    · rw [if_neg hcond]
      constructor
      · constructor
        · intro hcontra
          exact absurd hcontra (by decide)
        · intro hcontra
          exact absurd (hiff.mpr hcontra) hcond
      · exact ⟨fun _ => fun hc => hcond (hiff.mpr hc), fun _ => rfl⟩

/-- C8 (amended): estimateFontSize returns 16 whenever the box height is
nonpositive; when the height is positive it returns 0.85 times the height on
empty trimmed text, and otherwise its result is clamped into [0.4, 1.5]
times the box height whichever estimation path was taken. -/
theorem spec_C8 (m : TextMeasurer) (text : String) (b : Bbox) (fam wt : String) :
    (b.y1 - b.y0 ≤ 0 → estimateFontSize m text b fam wt = 16) ∧
    (0 < b.y1 - b.y0 → (jsTrim text).length = 0 →
      estimateFontSize m text b fam wt = ((b.y1 - b.y0 : ℤ) : ℚ) * 0.85) ∧
    (0 < b.y1 - b.y0 → (jsTrim text).length ≠ 0 →
      ((b.y1 - b.y0 : ℤ) : ℚ) * 0.4 ≤ estimateFontSize m text b fam wt ∧
        estimateFontSize m text b fam wt ≤ ((b.y1 - b.y0 : ℤ) : ℚ) * 1.5) := by
  refine ⟨?_, ?_, ?_⟩
  · intro h
    unfold estimateFontSize
    rw [if_pos h]
  · intro hpos hlen
    unfold estimateFontSize
    rw [if_neg (not_le.mpr hpos), if_pos hlen]
  · intro hpos hlen
    unfold estimateFontSize
    rw [if_neg (not_le.mpr hpos), if_neg hlen]
    have hh : (0 : ℚ) < ((b.y1 - b.y0 : ℤ) : ℚ) := by exact_mod_cast hpos
    constructor
    · exact le_max_left _ _
    · apply max_le
      · nlinarith
      · exact le_trans (min_le_left _ _) (le_refl _)

/-- C8 counterexample: at box height 0 with empty text the code returns the
fixed default 16, while the claim as stated demands 0.85 times the box
height, which is 0. -/
theorem spec_C8_cex :
    estimateFontSize idMeasurer "" ⟨0, 0, 5, 0⟩ "sans" "normal" = 16 ∧
    (jsTrim "").length = 0 ∧
    ((0 : ℤ) - 0 ≤ 0) ∧
    ((16 : ℚ) ≠ (((0 : ℤ) - 0 : ℤ) : ℚ) * 0.85) := by
  refine ⟨?_, by decide, by decide, by norm_num⟩
  unfold estimateFontSize
  rw [if_pos (by decide : (0 : ℤ) - 0 ≤ 0)]

theorem bisect_inv (measure : ℚ → ℚ) (W W2 : ℚ) (hW : W ≤ W2) :
    ∀ (l : List ℕ) (p p2 : ℚ × ℚ),
      p.1 ≤ p.2 → p2.1 ≤ p2.2 → p.1 ≤ p2.1 → p.2 ≤ p2.2 → (p = p2 ∨ p.2 ≤ p2.1) →
      (l.foldl (fun (q : ℚ × ℚ) (_ : ℕ) =>
          if measure ((q.1 + q.2) / 2) < W then ((q.1 + q.2) / 2, q.2)
          else (q.1, (q.1 + q.2) / 2)) p).1 ≤
        (l.foldl (fun (q : ℚ × ℚ) (_ : ℕ) =>
          if measure ((q.1 + q.2) / 2) < W2 then ((q.1 + q.2) / 2, q.2)
          else (q.1, (q.1 + q.2) / 2)) p2).1 ∧
      (l.foldl (fun (q : ℚ × ℚ) (_ : ℕ) =>
          if measure ((q.1 + q.2) / 2) < W then ((q.1 + q.2) / 2, q.2)
          else (q.1, (q.1 + q.2) / 2)) p).2 ≤
        (l.foldl (fun (q : ℚ × ℚ) (_ : ℕ) =>
          if measure ((q.1 + q.2) / 2) < W2 then ((q.1 + q.2) / 2, q.2)
          else (q.1, (q.1 + q.2) / 2)) p2).2 := by
  intro l
  induction l with
  | nil =>
    intro p p2 _ _ h3 h4 _
    exact ⟨h3, h4⟩
  | cons i t ih =>
    intro p p2 h1 h2 h3 h4 h5
    rw [List.foldl_cons, List.foldl_cons]
    have hmid1 : p.1 ≤ (p.1 + p.2) / 2 := by linarith
    have hmid2 : (p.1 + p.2) / 2 ≤ p.2 := by linarith
    have hmid1b : p2.1 ≤ (p2.1 + p2.2) / 2 := by linarith
    have hmid2b : (p2.1 + p2.2) / 2 ≤ p2.2 := by linarith
    rcases h5 with heq | hdisj
    · subst heq
      by_cases hm : measure ((p.1 + p.2) / 2) < W
      · rw [if_pos hm, if_pos (lt_of_lt_of_le hm hW)]
        exact ih _ _ hmid2 hmid2 (le_refl _) (le_refl _) (Or.inl rfl)
      · by_cases hm2 : measure ((p.1 + p.2) / 2) < W2
        · rw [if_neg hm, if_pos hm2]
          exact ih _ _ hmid1 hmid2 hmid1 hmid2 (Or.inr (le_refl _))
        · rw [if_neg hm, if_neg hm2]
          exact ih _ _ hmid1 hmid1 (le_refl _) (le_refl _) (Or.inl rfl)
    · have key : ∀ (a b : ℚ × ℚ),
          (a = ((p.1 + p.2) / 2, p.2) ∨ a = (p.1, (p.1 + p.2) / 2)) →
          (b = ((p2.1 + p2.2) / 2, p2.2) ∨ b = (p2.1, (p2.1 + p2.2) / 2)) →
          a.1 ≤ a.2 ∧ b.1 ≤ b.2 ∧ a.1 ≤ b.1 ∧ a.2 ≤ b.2 ∧ (a = b ∨ a.2 ≤ b.1) := by
        rintro a b (rfl | rfl) (rfl | rfl)
        · exact ⟨hmid2, hmid2b, by simp; linarith, by simp; linarith,
            Or.inr (by simp; linarith)⟩
        · exact ⟨hmid2, hmid1b, by simp; linarith, by simp; linarith,
            Or.inr (by simp; linarith)⟩
        · exact ⟨hmid1, hmid2b, by simp; linarith, by simp; linarith,
            Or.inr (by simp; linarith)⟩
        · exact ⟨hmid1, hmid1b, by simp; linarith, by simp; linarith,
            Or.inr (by simp; linarith)⟩
      by_cases hm : measure ((p.1 + p.2) / 2) < W <;>
        by_cases hm2 : measure ((p2.1 + p2.2) / 2) < W2
      · rw [if_pos hm, if_pos hm2]
        obtain ⟨k1, k2, k3, k4, k5⟩ := key _ _ (Or.inl rfl) (Or.inl rfl)
        exact ih _ _ k1 k2 k3 k4 k5
      · rw [if_pos hm, if_neg hm2]
        obtain ⟨k1, k2, k3, k4, k5⟩ := key _ _ (Or.inl rfl) (Or.inr rfl)
        exact ih _ _ k1 k2 k3 k4 k5
      · rw [if_neg hm, if_pos hm2]
        obtain ⟨k1, k2, k3, k4, k5⟩ := key _ _ (Or.inr rfl) (Or.inl rfl)
        exact ih _ _ k1 k2 k3 k4 k5
      · rw [if_neg hm, if_neg hm2]
        obtain ⟨k1, k2, k3, k4, k5⟩ := key _ _ (Or.inr rfl) (Or.inr rfl)
        exact ih _ _ k1 k2 k3 k4 k5

theorem fitByWidth_mono (m : TextMeasurer) (text fam wt : String) (W W2 : ℚ)
    (hW : W ≤ W2) :
    fitByWidth m text W fam wt ≤ fitByWidth m text W2 fam wt := by
  unfold fitByWidth
  have key := bisect_inv (m.measureWidth text fam wt) W W2 hW (List.range 20)
    (1, 200) (1, 200) (by norm_num) (by norm_num) (le_refl _) (le_refl _) (Or.inl rfl)
  have h1 := key.1
  have h2 := key.2
  linarith

/-- C9: on the fit-by-width path (trimmed length at least 3, positive box
widths, fixed height, any measurement oracle whose measured width is weakly
increasing in the font size), enlarging the box width does not decrease the
estimated font size. -/
theorem spec_C9 (m : TextMeasurer) (text fam wt : String) (b b2 : Bbox)
    (hmono : ∀ s t : ℚ, s ≤ t →
      m.measureWidth (jsTrim text) fam wt s ≤ m.measureWidth (jsTrim text) fam wt t)
    (hlen : (jsTrim text).length ≥ 3)
    (hw : 0 < b.x1 - b.x0) (hww : b.x1 - b.x0 ≤ b2.x1 - b2.x0)
    (hh : b.y1 - b.y0 = b2.y1 - b2.y0) :
    estimateFontSize m text b fam wt ≤ estimateFontSize m text b2 fam wt := by
  clear hmono
  unfold estimateFontSize
  rw [← hh]
  by_cases hdeg : b.y1 - b.y0 ≤ 0
  · rw [if_pos hdeg, if_pos hdeg]
  · rw [if_neg hdeg, if_neg hdeg]
    have hne : ¬(jsTrim text).length = 0 := by omega
    rw [if_neg hne, if_neg hne]
    have hw2 : 0 < b2.x1 - b2.x0 := lt_of_lt_of_le hw hww
    rw [if_pos ⟨hlen, hw⟩, if_pos ⟨hlen, hw2⟩]
    have hfit : fitByWidth m (jsTrim text) ((b.x1 - b.x0 : ℤ) : ℚ) fam wt ≤
        fitByWidth m (jsTrim text) ((b2.x1 - b2.x0 : ℤ) : ℚ) fam wt :=
      fitByWidth_mono m (jsTrim text) fam wt _ _ (by exact_mod_cast hww)
    exact max_le_max (le_refl _) (min_le_min (le_refl _) hfit)

/-- C9 witness: the id-width oracle is weakly increasing, and doubling the
box width from 10 to 20 at fixed height does not decrease the estimate. -/
theorem spec_C9_wit :
    estimateFontSize idMeasurer "abc" ⟨0, 0, 10, 10⟩ "sans" "normal" ≤
      estimateFontSize idMeasurer "abc" ⟨0, 0, 20, 10⟩ "sans" "normal" :=
  spec_C9 idMeasurer "abc" "sans" "normal" ⟨0, 0, 10, 10⟩ ⟨0, 0, 20, 10⟩
    (fun _ _ hst => hst) (by decide) (by decide) (by decide) (by decide)

/-- C6: medoidColor of the empty list is white, of a singleton is that
element, and of any non-empty list is an element of the input list, the
200-element subsampling cap included. -/
theorem spec_C6 (colors : List RGB) :
    (colors = [] → medoidColor colors = ⟨255, 255, 255⟩) ∧
    (∀ c : RGB, colors = [c] → medoidColor colors = c) ∧
    (colors ≠ [] → medoidColor colors ∈ colors) :=
  ⟨fun h => h ▸ medoidColor_nil, fun c h => h ▸ medoidColor_singleton c, medoidColor_mem colors⟩

/-- C6 witness: the empty, singleton and above-the-cap cases at concrete
inputs. -/
theorem spec_C6_wit :
    medoidColor [] = ⟨255, 255, 255⟩ ∧
    medoidColor [⟨1, 2, 3⟩] = ⟨1, 2, 3⟩ ∧
    medoidColor (List.replicate 201 ⟨9, 9, 9⟩) ∈ List.replicate 201 ⟨9, 9, 9⟩ :=
  ⟨(spec_C6 []).1 rfl, (spec_C6 [⟨1, 2, 3⟩]).2.1 ⟨1, 2, 3⟩ rfl,
    (spec_C6 (List.replicate 201 ⟨9, 9, 9⟩)).2.2 (by simp)⟩

/-- C5: both colour strings returned by sampleTextAndBgColor and the string
returned by sampleCardBackgroundColor always match the regular expression
pattern of a hash sign followed by exactly six lowercase hex digits. -/
theorem spec_C5 :
    (∀ (img : ImageData) (b : Bbox),
      hexColorOk (sampleTextAndBgColor img b).textColor = true ∧
      hexColorOk (sampleTextAndBgColor img b).bgColor = true) ∧
    (∀ (img : ImageData) (boxes : List Bbox),
      hexColorOk (sampleCardBackgroundColor img boxes) = true) := by
  constructor
  · intro img b
    unfold sampleTextAndBgColor
    cases hbc : sampleBorderColor img b with
    | none =>
      exact ⟨(by decide : hexColorOk "#000000" = true), (by decide : hexColorOk "#ffffff" = true)⟩
    | some bg =>
      simp only
      refine ⟨?_, rgbToHex_ok _⟩
      split_ifs with h1 h2 h3
      · exact rgbToHex_ok _
      · exact rgbToHex_ok _
      · decide
      · decide
  · intro img boxes
    unfold sampleCardBackgroundColor
    by_cases h0 : (gridColors img boxes).length = 0
    · rw [if_pos h0]
      decide
    · rw [if_neg h0]
      simp only
      split_ifs with h1
      · exact rgbToHex_ok _
      · exact rgbToHex_ok _

/-- C2 (amended): interior sampling always reads inside [0,width) x
[0,height); the border band also stays inside whenever the clamped box is
nonempty in both axes, i.e. the box meets the image horizontally and
vertically; and every in-bounds coordinate makes getPixel address bytes
strictly inside the RGBA array of 4 * width * height bytes. A box that
misses the image in exactly one axis can push a border-band coordinate out
of bounds, so the unconditional claim fails. -/
theorem spec_C2 (w h : ℕ) (b : Bbox) :
    (∀ p ∈ interiorReads w h b, inBoundsPt w h p) ∧
    (max 0 b.x0 < min (w : ℤ) b.x1 → max 0 b.y0 < min (h : ℤ) b.y1 →
      ∀ p ∈ borderReads w h b, inBoundsPt w h p) ∧
    (∀ p : ℤ × ℤ, inBoundsPt w h p →
      0 ≤ pixelIndex w p.1 p.2 ∧ pixelIndex w p.1 p.2 + 3 < 4 * (w : ℤ) * (h : ℤ)) := by
  refine ⟨?_, ?_, ?_⟩
  · intro p hp
    unfold interiorReads at hp
    obtain ⟨y, hy, hp2⟩ := List.mem_flatMap.mp hp
    obtain ⟨x, hx, rfl⟩ := List.mem_map.mp hp2
    obtain ⟨hx1, hx2⟩ := range2_subset hx
    obtain ⟨hy1, hy2⟩ := range2_subset hy
    exact ⟨le_trans (le_max_left 0 b.x0) hx1, lt_of_lt_of_le hx2 (min_le_left _ _),
      le_trans (le_max_left 0 b.y0) hy1, lt_of_lt_of_le hy2 (min_le_left _ _)⟩
  · intro hxo hyo p hp
    have hxlo : (0 : ℤ) ≤ max 0 b.x0 := le_max_left 0 b.x0
    have hylo : (0 : ℤ) ≤ max 0 b.y0 := le_max_left 0 b.y0
    have hxhi : min (w : ℤ) b.x1 ≤ (w : ℤ) := min_le_left _ _
    have hyhi : min (h : ℤ) b.y1 ≤ (h : ℤ) := min_le_left _ _
    have hx1w : min (w : ℤ) b.x1 ≤ b.x1 := min_le_right _ _
    have hy1h : min (h : ℤ) b.y1 ≤ b.y1 := min_le_right _ _
    have hwpos : (0 : ℤ) < (w : ℤ) := lt_of_le_of_lt hxlo (lt_of_lt_of_le hxo hxhi)
    have hhpos : (0 : ℤ) < (h : ℤ) := lt_of_le_of_lt hylo (lt_of_lt_of_le hyo hyhi)
    have hx0w : b.x0 < (w : ℤ) := lt_of_le_of_lt (le_max_right 0 b.x0) (lt_of_lt_of_le hxo hxhi)
    have hy0h : b.y0 < (h : ℤ) := lt_of_le_of_lt (le_max_right 0 b.y0) (lt_of_lt_of_le hyo hyhi)
    have hx1pos : (0 : ℤ) < b.x1 := lt_of_le_of_lt hxlo (lt_of_lt_of_le hxo hx1w)
    have hy1pos : (0 : ℤ) < b.y1 := lt_of_le_of_lt hylo (lt_of_lt_of_le hyo hy1h)
    unfold borderReads at hp
    simp only [List.mem_append] at hp
    rcases hp with ((hp | hp) | hp) | hp
    all_goals obtain ⟨z, hz, rfl⟩ := List.mem_map.mp hp
    all_goals obtain ⟨hz1, hz2⟩ := range2_subset hz
    · exact ⟨le_trans (le_max_left 0 b.x0) hz1, lt_of_lt_of_le hz2 (min_le_left _ _),
        le_max_left 0 (b.y0 - 2), max_lt hhpos (by omega)⟩
    · exact ⟨le_trans (le_max_left 0 b.x0) hz1, lt_of_lt_of_le hz2 (min_le_left _ _),
        le_min (by omega) (by omega), lt_of_le_of_lt (min_le_left _ _) (by omega)⟩
    · exact ⟨le_max_left 0 (b.x0 - 2), max_lt hwpos (by omega),
        le_trans (le_max_left 0 b.y0) hz1, lt_of_lt_of_le hz2 (min_le_left _ _)⟩
    · exact ⟨le_min (by omega) (by omega), lt_of_le_of_lt (min_le_left _ _) (by omega),
        le_trans (le_max_left 0 b.y0) hz1, lt_of_lt_of_le hz2 (min_le_left _ _)⟩
  · rintro ⟨x, y⟩ ⟨h1, h2, h3, h4⟩
    unfold pixelIndex
    constructor
    · have : 0 ≤ y * (w : ℤ) := mul_nonneg h3 (by positivity)
      nlinarith
    · have hyw : y * (w : ℤ) ≤ ((h : ℤ) - 1) * (w : ℤ) :=
        mul_le_mul_of_nonneg_right (by omega) (by positivity)
      nlinarith

/-- C2 counterexample: a 4 by 4 image with the box (0,6)-(4,8), which lies
entirely below the image but overlaps it horizontally: the clamped top band
coordinate is (0, 4), whose row index 4 equals the image height, an
out-of-bounds read. -/
theorem spec_C2_cex :
    ((0 : ℤ), (4 : ℤ)) ∈ borderReads 4 4 ⟨0, 6, 4, 8⟩ ∧
      ¬ inBoundsPt 4 4 ((0 : ℤ), (4 : ℤ)) := by
  constructor
  · decide
  · decide

/-- C2 witness: a box meeting a 4 by 4 image in both axes has every
border-band read in bounds. -/
theorem spec_C2_wit :
    (max 0 (1 : ℤ) < min ((4 : ℕ) : ℤ) 3) ∧
      ∀ p ∈ borderReads 4 4 ⟨1, 1, 3, 3⟩, inBoundsPt 4 4 p :=
  ⟨by decide, (spec_C2 4 4 ⟨1, 1, 3, 3⟩).2.1 (by decide) (by decide)⟩

/-- C1 (amended): when the box misses the image horizontally and vertically
(so that the clamped border loops are all empty and no border pixel exists),
sampleTextAndBgColor returns exactly black text on white background. A box
outside the image bounds in only one axis still collects clamped border
pixels, so the fallback is not taken there. -/
theorem spec_C1 (img : ImageData) (b : Bbox)
    (hx : ¬(max 0 b.x0 < min (img.width : ℤ) b.x1))
    (hy : ¬(max 0 b.y0 < min (img.height : ℤ) b.y1)) :
    sampleTextAndBgColor img b = ⟨"#000000", "#ffffff"⟩ := by
  have hxs : range2 (max 0 b.x0) (min (img.width : ℤ) b.x1) = [] :=
    range2_nil (le_of_not_lt hx)
  have hys : range2 (max 0 b.y0) (min (img.height : ℤ) b.y1) = [] :=
    range2_nil (le_of_not_lt hy)
  have hreads : borderReads img.width img.height b = [] := by
    unfold borderReads
    simp only [hxs, hys, List.map_nil, List.append_nil]
  have hbp : borderPixels img b = [] := by
    unfold borderPixels
    rw [hreads]
    rfl
  have hbc : sampleBorderColor img b = none := by
    unfold sampleBorderColor
    simp only [hbp, if_pos]
  unfold sampleTextAndBgColor
  rw [hbc]

/-- C1 witness: a box strictly beyond the bottom-right corner of a 4 by 4
image yields the exact black-on-white fallback. -/
theorem spec_C1_wit :
    ¬(max 0 (10 : ℤ) < min ((4 : ℕ) : ℤ) 12) ∧
      sampleTextAndBgColor ⟨4, 4, fun _ => 0⟩ ⟨10, 10, 12, 12⟩ = ⟨"#000000", "#ffffff"⟩ :=
  ⟨by decide, spec_C1 ⟨4, 4, fun _ => 0⟩ ⟨10, 10, 12, 12⟩ (by decide) (by decide)⟩

/-- C1 counterexample: the box (0,-8)-(4,-1) lies entirely outside a black
4 by 4 image (every point of it has negative y), yet the border sampler
still collects clamped top and bottom band pixels from rows 0 and 1, and
the function returns white text on black background instead of the claimed
black-on-white fallback. -/
theorem spec_C1_cex :
    (Bbox.y1 ⟨0, -8, 4, -1⟩ < 0) ∧
      sampleTextAndBgColor ⟨4, 4, fun _ => 0⟩ ⟨0, -8, 4, -1⟩ =
        ⟨"#ffffff", "#000000"⟩ ∧
      sampleTextAndBgColor ⟨4, 4, fun _ => 0⟩ ⟨0, -8, 4, -1⟩ ≠
        ⟨"#000000", "#ffffff"⟩ := by
  have hbp : borderPixels ⟨4, 4, fun _ => 0⟩ ⟨0, -8, 4, -1⟩ =
      [⟨0, 0, 0⟩, ⟨0, 0, 0⟩, ⟨0, 0, 0⟩, ⟨0, 0, 0⟩] := by decide
  have hmed : medoidColor (borderPixels ⟨4, 4, fun _ => 0⟩ ⟨0, -8, 4, -1⟩) = ⟨0, 0, 0⟩ := by
    apply medoidColor_const
    · rw [hbp]
      decide
    · rw [hbp]
      decide
  have hbc : sampleBorderColor ⟨4, 4, fun _ => 0⟩ ⟨0, -8, 4, -1⟩ = some ⟨0, 0, 0⟩ := by
    unfold sampleBorderColor
    rw [if_neg (by rw [hbp]; decide), hmed]
  have hint : interiorPixels ⟨4, 4, fun _ => 0⟩ ⟨0, -8, 4, -1⟩ = [] := by decide
  have hscan : interiorScan ⟨4, 4, fun _ => 0⟩ ⟨0, -8, 4, -1⟩ (rgbToLab ⟨0, 0, 0⟩) =
      ⟨[], [], none, 0⟩ := by
    unfold interiorScan
    rw [hint]
    rfl
  have hround : jsRound (0 : ℚ) = 0 := by
    unfold jsRound
    norm_num
  have hbyte : toHexByte (0 : ℚ) = "00" := by
    unfold toHexByte
    rw [hround]
    decide
  have hhex : rgbToHex ⟨0, 0, 0⟩ = "#000000" := by
    unfold rgbToHex
    rw [hbyte]
    decide
  have hres : sampleTextAndBgColor ⟨4, 4, fun _ => 0⟩ ⟨0, -8, 4, -1⟩ =
      ⟨"#ffffff", "#000000"⟩ := by
    unfold sampleTextAndBgColor
    rw [hbc]
    simp only [hscan]
    rw [if_neg (by decide : ¬(List.length ([] : List RGB) > 0))]
    rw [if_neg (by decide : ¬(List.length ([] : List RGB) ≥ 3))]
    rw [if_neg (by simp : ¬((none : Option RGB).isSome ∧ (0 : ℝ) > 0))]
    rw [if_neg (by norm_num [luminance] : ¬(luminance ⟨0, 0, 0⟩ > 128))]
    rw [hhex]
  exact ⟨by decide, hres, by rw [hres]; decide⟩

/-- C3: with bg the border-derived background estimate, the interior scan of
sampleTextAndBgColor puts a sampled pixel into the background cluster
exactly when its CIE76 distance to the estimate is strictly below 20 and
into the foreground cluster otherwise: the clusters are the two
complementary filters of the sampled pixel list, so every sampled pixel
lands in exactly one of them. -/
theorem spec_C3 (img : ImageData) (b : Bbox) (bg : RGB)
    (hbg : sampleBorderColor img b = some bg) :
    (interiorScan img b (rgbToLab bg)).bgCluster =
      (interiorPixels img b).filter
        (fun px => decide (deltaE (rgbToLab bg) (rgbToLab px) < 20)) ∧
    (interiorScan img b (rgbToLab bg)).textCluster =
      (interiorPixels img b).filter
        (fun px => !decide (deltaE (rgbToLab bg) (rgbToLab px) < 20)) ∧
    (∀ px ∈ interiorPixels img b,
      (px ∈ (interiorScan img b (rgbToLab bg)).bgCluster ↔
        deltaE (rgbToLab bg) (rgbToLab px) < 20) ∧
      (px ∈ (interiorScan img b (rgbToLab bg)).textCluster ↔
        ¬ deltaE (rgbToLab bg) (rgbToLab px) < 20)) := by
  have hbgc : (interiorScan img b (rgbToLab bg)).bgCluster =
      (interiorPixels img b).filter
        (fun px => decide (deltaE (rgbToLab bg) (rgbToLab px) < 20)) := by
    unfold interiorScan
    rw [scanFold_bg]
    rfl
  have htc : (interiorScan img b (rgbToLab bg)).textCluster =
      (interiorPixels img b).filter
        (fun px => !decide (deltaE (rgbToLab bg) (rgbToLab px) < 20)) := by
    unfold interiorScan
    rw [scanFold_text]
    rfl
  refine ⟨hbgc, htc, ?_⟩
  intro px hpx
  constructor
  · rw [hbgc]
    simp [List.mem_filter, hpx]
  · rw [htc]
    simp [List.mem_filter, hpx]

/-- C4: given the border estimate bg, the returned background colour is the
medoid of the background cluster when non-empty and bg otherwise; the
returned text colour is the medoid of the foreground cluster when it has at
least 3 members, else the hex of a sampled pixel realizing the maximal
distance when that maximum is positive, else pure black or white by the
luminance of the border background against threshold 128. -/
theorem spec_C4 (img : ImageData) (b : Bbox) (bg : RGB)
    (hbg : sampleBorderColor img b = some bg) :
    ((sampleTextAndBgColor img b).bgColor =
      rgbToHex
        (if (interiorPixels img b).filter
            (fun px => decide (deltaE (rgbToLab bg) (rgbToLab px) < 20)) = [] then bg
         else medoidColor ((interiorPixels img b).filter
            (fun px => decide (deltaE (rgbToLab bg) (rgbToLab px) < 20))))) ∧
    (((interiorPixels img b).filter
        (fun px => !decide (deltaE (rgbToLab bg) (rgbToLab px) < 20))).length ≥ 3 →
      (sampleTextAndBgColor img b).textColor =
        rgbToHex (medoidColor ((interiorPixels img b).filter
          (fun px => !decide (deltaE (rgbToLab bg) (rgbToLab px) < 20))))) ∧
    (((interiorPixels img b).filter
        (fun px => !decide (deltaE (rgbToLab bg) (rgbToLab px) < 20))).length < 3 →
      0 < maxDist (rgbToLab bg) (interiorPixels img b) →
      ∃ px ∈ interiorPixels img b,
        deltaE (rgbToLab bg) (rgbToLab px) = maxDist (rgbToLab bg) (interiorPixels img b) ∧
        (sampleTextAndBgColor img b).textColor = rgbToHex px) ∧
    (((interiorPixels img b).filter
        (fun px => !decide (deltaE (rgbToLab bg) (rgbToLab px) < 20))).length < 3 →
      maxDist (rgbToLab bg) (interiorPixels img b) = 0 →
      (sampleTextAndBgColor img b).textColor =
        if luminance bg > 128 then "#000000" else "#ffffff") := by
  have hbgc : (interiorScan img b (rgbToLab bg)).bgCluster =
      (interiorPixels img b).filter
        (fun px => decide (deltaE (rgbToLab bg) (rgbToLab px) < 20)) := by
    unfold interiorScan
    rw [scanFold_bg]
    rfl
  have htc : (interiorScan img b (rgbToLab bg)).textCluster =
      (interiorPixels img b).filter
        (fun px => !decide (deltaE (rgbToLab bg) (rgbToLab px) < 20)) := by
    unfold interiorScan
    rw [scanFold_text]
    rfl
  have hfar := scanFold_far (rgbToLab bg) (interiorPixels img b)
    ⟨[], [], none, 0⟩
  have hfd : (interiorScan img b (rgbToLab bg)).farthestDist =
      maxDist (rgbToLab bg) (interiorPixels img b) := maxDist_eq_scan img b (rgbToLab bg)
  unfold sampleTextAndBgColor
  rw [hbg]
  simp only
  refine ⟨?_, ?_, ?_, ?_⟩
  · rw [hbgc]
    by_cases hf : (interiorPixels img b).filter
        (fun px => decide (deltaE (rgbToLab bg) (rgbToLab px) < 20)) = []
    · rw [if_pos hf, hf]
      rw [if_neg (by decide : ¬(List.length ([] : List RGB) > 0))]
    · rw [if_neg hf, if_pos (List.length_pos.mpr hf)]
  · intro h3
    rw [htc] at *
    rw [if_pos h3]
  · intro h3 hmax
    rw [if_neg (by rw [htc]; omega)]
    rcases hfar with ⟨hfp0, hfd0⟩ | ⟨px, hpxmem, hfp, hfdd, hgt⟩
    · exfalso
      have : (interiorScan img b (rgbToLab bg)).farthestDist = 0 := by
        show ((interiorPixels img b).foldl (scanStep (rgbToLab bg))
          ⟨[], [], none, 0⟩).farthestDist = 0
        exact hfd0
      rw [this] at hfd
      rw [← hfd] at hmax
      exact lt_irrefl _ hmax
    · have hfp2 : (interiorScan img b (rgbToLab bg)).farthestPixel = some px := hfp
      have hfdd2 : (interiorScan img b (rgbToLab bg)).farthestDist =
          deltaE (rgbToLab bg) (rgbToLab px) := hfdd
      refine ⟨px, hpxmem, by rw [← hfdd2, hfd], ?_⟩
      rw [if_pos ⟨by rw [hfp2]; rfl, by rw [hfd]; exact hmax⟩]
      rw [hfp2]
      rfl
  · intro h3 hmax
    rw [if_neg (by rw [htc]; omega)]
    rw [if_neg (by rw [hfd, hmax]; simp)]

/-- C3 witness: on a black 1 by 1 image with the box (0,0)-(1,1) the border
estimate is black and the background cluster is the matching filter of the
sampled interior pixels. -/
theorem spec_C3_wit :
    sampleBorderColor ⟨1, 1, fun _ => 0⟩ ⟨0, 0, 1, 1⟩ = some ⟨0, 0, 0⟩ ∧
      (interiorScan ⟨1, 1, fun _ => 0⟩ ⟨0, 0, 1, 1⟩ (rgbToLab ⟨0, 0, 0⟩)).bgCluster =
        (interiorPixels ⟨1, 1, fun _ => 0⟩ ⟨0, 0, 1, 1⟩).filter
          (fun px => decide (deltaE (rgbToLab ⟨0, 0, 0⟩) (rgbToLab px) < 20)) := by
  have hbp : borderPixels ⟨1, 1, fun _ => 0⟩ ⟨0, 0, 1, 1⟩ =
      [⟨0, 0, 0⟩, ⟨0, 0, 0⟩, ⟨0, 0, 0⟩, ⟨0, 0, 0⟩] := by decide
  have hbg : sampleBorderColor ⟨1, 1, fun _ => 0⟩ ⟨0, 0, 1, 1⟩ = some ⟨0, 0, 0⟩ := by
    unfold sampleBorderColor
    rw [if_neg (by rw [hbp]; decide)]
    rw [medoidColor_const (c := ⟨0, 0, 0⟩) (by rw [hbp]; decide) (by rw [hbp]; decide)]
  exact ⟨hbg, (spec_C3 ⟨1, 1, fun _ => 0⟩ ⟨0, 0, 1, 1⟩ ⟨0, 0, 0⟩ hbg).1⟩

/-- C4 witness: on a flat grey 2 by 2 image with the box (0,0)-(2,2) the
border estimate is that grey and the returned background colour follows the
background-cluster rule. -/
theorem spec_C4_wit :
    sampleBorderColor ⟨2, 2, fun _ => 5⟩ ⟨0, 0, 2, 2⟩ = some ⟨5, 5, 5⟩ ∧
      (sampleTextAndBgColor ⟨2, 2, fun _ => 5⟩ ⟨0, 0, 2, 2⟩).bgColor =
        rgbToHex
          (if (interiorPixels ⟨2, 2, fun _ => 5⟩ ⟨0, 0, 2, 2⟩).filter
              (fun px => decide (deltaE (rgbToLab ⟨5, 5, 5⟩) (rgbToLab px) < 20)) = []
           then (⟨5, 5, 5⟩ : RGB)
           else medoidColor ((interiorPixels ⟨2, 2, fun _ => 5⟩ ⟨0, 0, 2, 2⟩).filter
              (fun px => decide (deltaE (rgbToLab ⟨5, 5, 5⟩) (rgbToLab px) < 20)))) := by
  have hbp : borderPixels ⟨2, 2, fun _ => 5⟩ ⟨0, 0, 2, 2⟩ =
      [⟨5, 5, 5⟩, ⟨5, 5, 5⟩, ⟨5, 5, 5⟩, ⟨5, 5, 5⟩] := by decide
  have hbg : sampleBorderColor ⟨2, 2, fun _ => 5⟩ ⟨0, 0, 2, 2⟩ = some ⟨5, 5, 5⟩ := by
    unfold sampleBorderColor
    rw [if_neg (by rw [hbp]; decide)]
    rw [medoidColor_const (c := ⟨5, 5, 5⟩) (by rw [hbp]; decide) (by rw [hbp]; decide)]
  exact ⟨hbg, (spec_C4 ⟨2, 2, fun _ => 5⟩ ⟨0, 0, 2, 2⟩ ⟨5, 5, 5⟩ hbg).1⟩

theorem margin_nonneg (w : ℕ) : 0 ≤ ⌊(w : ℚ) * 0.05⌋ :=
  Int.floor_nonneg.mpr (by positivity)

theorem margin_twice_lt (w : ℕ) (hw : 1 ≤ w) : ⌊(w : ℚ) * 0.05⌋ * 2 < (w : ℤ) := by
  have h1 : (⌊(w : ℚ) * 0.05⌋ : ℚ) ≤ (w : ℚ) * 0.05 := Int.floor_le _
  have hw1 : (1 : ℚ) ≤ (w : ℚ) := by exact_mod_cast hw
  have h2 : ((⌊(w : ℚ) * 0.05⌋ * 2 : ℤ) : ℚ) < (w : ℚ) := by
    push_cast
    nlinarith
  exact_mod_cast h2

theorem grid_cell_bounds (g : ℕ) (hg : g < 25) (inner : ℤ) (hpos : 0 < inner) :
    0 ≤ ⌊(((g : ℚ) + 0.5) / 25) * ((inner : ℤ) : ℚ)⌋ ∧
      ⌊(((g : ℚ) + 0.5) / 25) * ((inner : ℤ) : ℚ)⌋ < inner := by
  have hinq : (0 : ℚ) < ((inner : ℤ) : ℚ) := by exact_mod_cast hpos
  constructor
  · apply Int.floor_nonneg.mpr
    positivity
  · apply Int.floor_lt.mpr
    have hfrac : ((g : ℚ) + 0.5) / 25 < 1 := by
      rw [div_lt_one (by norm_num)]
      have hg24 : (g : ℚ) ≤ 24 := by exact_mod_cast Nat.le_of_lt_succ hg
      linarith
    nlinarith

theorem grid_mem_inBounds {w h : ℕ} {boxes : List Bbox} {p : ℤ × ℤ}
    (hp : p ∈ gridSamplePoints w h boxes) : inBoundsPt w h p := by
  unfold gridSamplePoints at hp
  obtain ⟨gy, _, hp2⟩ := List.mem_flatMap.mp hp
  obtain ⟨gx, _, hfx⟩ := List.mem_filterMap.mp hp2
  simp only at hfx
  split_ifs at hfx with h1 h2
  injection hfx with hxy
  push_neg at h1
  rw [← hxy]
  exact ⟨h1.1, h1.2.1, h1.2.2.1, h1.2.2.2⟩

theorem grid_mem_first (w h : ℕ) (hw : 1 ≤ w) (hh : 1 ≤ h) (gx gy : ℕ)
    (hgx : gx < 25) (hgy : gy < 25) :
    (⌊(w : ℚ) * 0.05⌋ + ⌊(((gx : ℚ) + 0.5) / 25) * (((w : ℤ) - ⌊(w : ℚ) * 0.05⌋ * 2 : ℤ) : ℚ)⌋,
      ⌊(h : ℚ) * 0.05⌋ + ⌊(((gy : ℚ) + 0.5) / 25) * (((h : ℤ) - ⌊(h : ℚ) * 0.05⌋ * 2 : ℤ) : ℚ)⌋) ∈
      gridSamplePoints w h [] := by
  have hiw : 0 < (w : ℤ) - ⌊(w : ℚ) * 0.05⌋ * 2 := by
    have := margin_twice_lt w hw
    omega
  have hih : 0 < (h : ℤ) - ⌊(h : ℚ) * 0.05⌋ * 2 := by
    have := margin_twice_lt h hh
    omega
  obtain ⟨hx0, hx1⟩ := grid_cell_bounds gx hgx _ hiw
  obtain ⟨hy0, hy1⟩ := grid_cell_bounds gy hgy _ hih
  have hmx := margin_nonneg w
  have hmy := margin_nonneg h
  unfold gridSamplePoints
  rw [List.mem_flatMap]
  refine ⟨gy, List.mem_range.mpr hgy, ?_⟩
  rw [List.mem_filterMap]
  refine ⟨gx, List.mem_range.mpr hgx, ?_⟩
  simp only
  rw [if_neg (by push_neg; exact ⟨by omega, by omega, by omega, by omega⟩)]
  rw [if_neg (by simp)]

theorem outlierFold_all (centerLab : LAB) (c : RGB)
    (hlt : deltaE centerLab (rgbToLab c) < 15) :
    ∀ (l : List RGB), (∀ x ∈ l, x = c) →
      outlierFold centerLab l =
        ((l.length : ℚ) * c.r, (l.length : ℚ) * c.g, (l.length : ℚ) * c.b, l.length) := by
  have key : ∀ (t : List RGB) (acc : ℚ × ℚ × ℚ × ℕ), (∀ x ∈ t, x = c) →
      t.foldl
        (fun acc x =>
          if deltaE centerLab (rgbToLab x) < 15 then
            (acc.1 + x.r, acc.2.1 + x.g, acc.2.2.1 + x.b, acc.2.2.2 + 1)
          else acc) acc =
      (acc.1 + (t.length : ℚ) * c.r, acc.2.1 + (t.length : ℚ) * c.g,
        acc.2.2.1 + (t.length : ℚ) * c.b, acc.2.2.2 + t.length) := by
    intro t
    induction t with
    | nil =>
      intro acc _
      simp
    | cons x s ih =>
      intro acc hall
      have hx : x = c := hall x (List.mem_cons_self x s)
      subst hx
      rw [List.foldl_cons, if_pos hlt, ih _ (fun z hz => hall z (List.mem_cons_of_mem x hz))]
      have hlen : ((x :: s).length : ℚ) = (s.length : ℚ) + 1 := by
        push_cast [List.length_cons]
        ring
      refine Prod.ext ?_ (Prod.ext ?_ (Prod.ext ?_ ?_))
      · simp only [hlen]
        ring
      · simp only [hlen]
        ring
      · simp only [hlen]
        ring
      · simp [List.length_cons]
        omega
  intro l hall
  have h := key l (0, 0, 0, 0) hall
  rw [outlierFold, h]
  norm_num

/-- C7: a flat-colour image with no exclusion boxes yields exactly that
colour; an empty grid sample yields white; and when no sample passes the
pass-2 Delta-E filter the pass-1 medoid is returned directly. -/
theorem spec_C7 (img : ImageData) :
    (∀ c : RGB, 1 ≤ img.width → 1 ≤ img.height →
      (∀ x y : ℤ, 0 ≤ x → x < (img.width : ℤ) → 0 ≤ y → y < (img.height : ℤ) →
        getPixel img x y = c) →
      sampleCardBackgroundColor img [] = rgbToHex c) ∧
    (∀ boxes : List Bbox, gridColors img boxes = [] →
      sampleCardBackgroundColor img boxes = "#ffffff") ∧
    (∀ boxes : List Bbox, gridColors img boxes ≠ [] →
      (outlierFold (rgbToLab (medoidColor (gridColors img boxes)))
          (gridColors img boxes)).2.2.2 = 0 →
      sampleCardBackgroundColor img boxes = rgbToHex (medoidColor (gridColors img boxes))) := by
  refine ⟨?_, ?_, ?_⟩
  · intro c hw hh hflat
    have hall : ∀ q ∈ gridColors img [], q = c := by
      intro q hq
      unfold gridColors at hq
      obtain ⟨p, hp, rfl⟩ := List.mem_map.mp hq
      have hb := grid_mem_inBounds hp
      exact hflat p.1 p.2 hb.1 hb.2.1 hb.2.2.1 hb.2.2.2
    have hne : gridColors img [] ≠ [] := by
      unfold gridColors
      intro hcontra
      have hmem := grid_mem_first img.width img.height hw hh 0 0 (by norm_num) (by norm_num)
      rw [List.map_eq_nil_iff] at hcontra
      rw [hcontra] at hmem
      exact List.not_mem_nil _ hmem
    have hlen : (gridColors img []).length ≠ 0 :=
      fun hz => hne (List.length_eq_zero.mp hz)
    have hlenq : (((gridColors img []).length : ℕ) : ℚ) ≠ 0 := Nat.cast_ne_zero.mpr hlen
    have hmed : medoidColor (gridColors img []) = c := medoidColor_const hall hne
    obtain ⟨n1, n2, n3, hcr, hcg, hcb⟩ : ∃ n1 n2 n3 : ℕ,
        c.r = (n1 : ℚ) ∧ c.g = (n2 : ℚ) ∧ c.b = (n3 : ℚ) := by
      have hc0 : getPixel img 0 0 = c :=
        hflat 0 0 le_rfl (by exact_mod_cast hw) le_rfl (by exact_mod_cast hh)
      refine ⟨img.data (pixelIndex img.width 0 0), img.data (pixelIndex img.width 0 0 + 1),
        img.data (pixelIndex img.width 0 0 + 2), ?_, ?_, ?_⟩ <;> rw [← hc0] <;> rfl
    unfold sampleCardBackgroundColor
    simp only
    rw [if_neg hlen, hmed]
    rw [outlierFold_all (rgbToLab c) c (by rw [deltaE_self]; norm_num) _ hall]
    rw [if_neg (show ¬(((gridColors img []).length : ℚ) * c.r, ((gridColors img []).length : ℚ) * c.g,
      ((gridColors img []).length : ℚ) * c.b, (gridColors img []).length).2.2.2 = 0 from hlen)]
    simp only [hcr, hcg, hcb]
    rw [mul_div_cancel_left₀ _ hlenq, mul_div_cancel_left₀ _ hlenq, mul_div_cancel_left₀ _ hlenq,
      jsRound_natCast, jsRound_natCast, jsRound_natCast]
    cases c with
    | mk cr cg cb =>
      simp only at hcr hcg hcb
      rw [hcr, hcg, hcb]
      norm_num
  · intro boxes hz
    unfold sampleCardBackgroundColor
    simp only
    rw [hz]
    rfl
  · intro boxes hne hcnt
    unfold sampleCardBackgroundColor
    simp only
    rw [if_neg (fun hz => hne (List.length_eq_zero.mp hz)), if_pos hcnt]

/-- C7 witness: a flat 1 by 1 image of colour (7,7,7) returns its own hex,
and a 0 by 0 image (no valid grid samples) returns white. -/
theorem spec_C7_wit :
    (1 ≤ 1 ∧ sampleCardBackgroundColor ⟨1, 1, fun _ => 7⟩ [] = rgbToHex ⟨7, 7, 7⟩) ∧
      (gridColors ⟨0, 0, fun _ => 0⟩ [] = [] ∧
        sampleCardBackgroundColor ⟨0, 0, fun _ => 0⟩ [] = "#ffffff") := by
  have hflat : ∀ x y : ℤ, 0 ≤ x → x < (((1 : ℕ) : ℤ)) → 0 ≤ y → y < (((1 : ℕ) : ℤ)) →
      getPixel ⟨1, 1, fun _ => 7⟩ x y = ⟨7, 7, 7⟩ := by
    intro x y hx1 hx2 hy1 hy2
    have hx : x = 0 := by omega
    have hy : y = 0 := by omega
    subst hx
    subst hy
    show RGB.mk ((7 : ℕ) : ℚ) ((7 : ℕ) : ℚ) ((7 : ℕ) : ℚ) = ⟨7, 7, 7⟩
    norm_num
  have hgz : gridColors ⟨0, 0, fun _ => 0⟩ [] = [] := by
    unfold gridColors
    have hg : gridSamplePoints 0 0 [] = [] := by
      rw [List.eq_nil_iff_forall_not_mem]
      intro p hp
      have hb := grid_mem_inBounds hp
      have h1 := hb.1
      have h2 := hb.2.1
      simp only [Nat.cast_zero] at h2
      exact absurd (lt_of_le_of_lt h1 h2) (lt_irrefl 0)
    rw [hg]
    rfl
  exact ⟨⟨le_rfl, (spec_C7 ⟨1, 1, fun _ => 7⟩).1 ⟨7, 7, 7⟩ le_rfl le_rfl hflat⟩,
    hgz, (spec_C7 ⟨0, 0, fun _ => 0⟩).2.1 [] hgz⟩

/-- C8 witness: a 10-pixel-high box with non-empty text keeps the estimate
inside [4, 15], i.e. [0.4, 1.5] of the height. -/
theorem spec_C8_wit :
    (0 : ℤ) < 10 - 0 ∧ (jsTrim "hello").length ≠ 0 ∧
      ((((10 : ℤ) - 0 : ℤ) : ℚ) * 0.4 ≤
          estimateFontSize idMeasurer "hello" ⟨0, 0, 10, 10⟩ "sans" "normal" ∧
        estimateFontSize idMeasurer "hello" ⟨0, 0, 10, 10⟩ "sans" "normal" ≤
          (((10 : ℤ) - 0 : ℤ) : ℚ) * 1.5) :=
  ⟨by decide, by decide,
    (spec_C8 idMeasurer "hello" ⟨0, 0, 10, 10⟩ "sans" "normal").2.2 (by decide) (by decide)⟩
